import Mathlib

/-
Verification development for `tools/bisection-search/common.py`, the test
environment abstraction of the bisection search tool (host and device
variants).

Embedding conventions:
* Filesystem paths are modelled as lists of path components
  (`FPath := List String`); the source's string joins `'{0}/{1}'.format(d, n)`
  become `d ++ [n]`.  File contents stay ordinary strings.
* A Python `dict` is modelled as an association list with unique keys;
  `d[k] = v` is `dictInsert`, `d.update(u)` is `dictUpdate`, `d.get(k)` /
  `k in d` are `dictGet`.
* Child process behaviour is an explicit oracle (`ProcBehavior`): how long
  the process would run, the merged stdout+stderr text it would produce on
  normal completion, the text accumulated by the time it is killed, and its
  own exit status.  `Popen/communicate/kill` then become pure bookkeeping on
  that oracle, with a `killed` flag recording whether `proc.kill()` ran.
* Effects (directory creation, environment variable lookup, command
  execution) are recorded as explicit event lists so that ordering claims
  ("invalidation happens before execution", "directories are created before
  the variable check") are statable.
* In-place mutation of a caller-supplied dict (Python aliasing) is modelled
  by returning the caller-visible value of the argument after the call.
-/

set_option autoImplicit false

namespace Bisection

/-! ## Python dictionaries as association lists -/

abbrev Dict := List (String × String)

/-- Lookup of a key in a dict (Python `d.get(k)` / `d[k]` / `k in d`). -/
def dictGet : Dict → String → Option String
  | [], _ => none
  | kv :: rest, k => if kv.1 = k then some kv.2 else dictGet rest k

/-- Assignment `d[k] = v` on a dict with unique keys: replace the binding in
place if the key is present, otherwise append it. -/
def dictInsert : Dict → String → String → Dict
  | [], k, v => [(k, v)]
  | kv :: rest, k, v =>
    if kv.1 = k then (k, v) :: rest else kv :: dictInsert rest k v

/-- Python `d.update(u)`: assign every binding of `u` into `d` in order. -/
def dictUpdate (d : Dict) (u : Dict) : Dict :=
  u.foldl (fun acc kv => dictInsert acc kv.1 kv.2) d

theorem dictGet_dictInsert (d : Dict) (k v k' : String) :
    dictGet (dictInsert d k v) k' = if k = k' then some v else dictGet d k' := by
  induction d with
  | nil =>
    by_cases h : k = k' <;> simp [dictInsert, dictGet, h]
  | cons kv rest ih =>
    rcases kv with ⟨k0, v0⟩
    by_cases h1 : k0 = k
    · subst h1
      by_cases h2 : k0 = k' <;> simp [dictInsert, dictGet, h2]
    · by_cases h2 : k0 = k'
      · have hkk : ¬ k = k' := fun h3 => h1 (h2.trans h3.symm)
        have hk2 : ¬ k' = k := fun h3 => hkk h3.symm
        simp [dictInsert, dictGet, h1, h2, hkk, hk2]
      · simp [dictInsert, dictGet, h1, h2, ih]

theorem dictGet_eq_none_of_not_mem_keys (u : Dict) (k : String)
    (h : k ∉ u.map Prod.fst) : dictGet u k = none := by
  induction u with
  | nil => rfl
  | cons kv rest ih =>
    simp only [List.map_cons, List.mem_cons] at h
    push_neg at h
    have hne : kv.1 ≠ k := fun hh => h.1 hh.symm
    simp [dictGet, hne, ih h.2]

/-- Lookup after `d.update(u)` for an override dict `u` with unique keys:
bindings of `u` win, everything else falls back to `d`. -/
theorem dictGet_dictUpdate (d u : Dict) (k : String)
    (hnd : (u.map Prod.fst).Nodup) :
    dictGet (dictUpdate d u) k = (dictGet u k).orElse (fun _ => dictGet d k) := by
  induction u generalizing d with
  | nil => simp [dictUpdate, dictGet, Option.orElse]
  | cons kv rest ih =>
    simp only [List.map_cons, List.nodup_cons] at hnd
    have step : dictUpdate d (kv :: rest) = dictUpdate (dictInsert d kv.1 kv.2) rest := rfl
    rw [step, ih _ hnd.2]
    by_cases h : kv.1 = k
    · have : dictGet rest k = none :=
        dictGet_eq_none_of_not_mem_keys rest k (h ▸ hnd.1)
      simp [dictGet, this, dictGet_dictInsert, h, Option.orElse]
    · simp [dictGet, h, dictGet_dictInsert, Option.orElse]

/-! ## Filesystem model -/

/-- A path is a list of components; `'{0}/{1}'.format(d, n)` is `d ++ [n]`. -/
abbrev FPath := List String

/-- A filesystem entry: a regular file with its text content, or a
directory. -/
inductive FsEntry where
  | file (content : String)
  | dir
  deriving DecidableEq

abbrev Fs := List (FPath × FsEntry)

/-- Entry stored at a path, if any. -/
def fsFind (fs : Fs) (p : FPath) : Option FsEntry :=
  match fs.find? (fun pe => pe.1 = p) with
  | some pe => some pe.2
  | none => none

/-- Python `os.path.isfile`. -/
def isfile (fs : Fs) (p : FPath) : Bool :=
  match fsFind fs p with
  | some (.file _) => true
  | _ => false

/-- Python `os.unlink`: remove the entry at a path. -/
def unlink (fs : Fs) (p : FPath) : Fs :=
  fs.filter (fun pe => pe.1 ≠ p)

/-- Python `os.listdir d`: names of the entries lying directly inside `d`. -/
def listdir (fs : Fs) (d : FPath) : List String :=
  fs.filterMap (fun pe =>
    match pe.1.getLast? with
    | some n => if pe.1.dropLast = d then some n else none
    | none => none)

/-- Creating or fully overwriting the file at `p` with content `c`
(Python `open(p, 'w')` followed by writes); replacement is modelled as
remove-then-add. -/
def fsWrite (fs : Fs) (p : FPath) (c : String) : Fs :=
  unlink fs p ++ [(p, FsEntry.file c)]

theorem fsFind_fsWrite (fs : Fs) (p : FPath) (c : String) :
    fsFind (fsWrite fs p c) p = some (FsEntry.file c) := by
  induction fs with
  | nil => simp [fsWrite, unlink, fsFind, List.find?]
  | cons pe rest ih =>
    by_cases h : pe.1 = p
    · simpa [fsWrite, unlink, h] using ih
    · simpa [fsWrite, unlink, fsFind, List.find?, h] using ih

/-! ## Generic list and string helpers -/

theorem dropLast_append_single {α : Type} (l : List α) (a : α) :
    (l ++ [a]).dropLast = l := by
  induction l with
  | nil => rfl
  | cons x xs ih =>
    cases xs with
    | nil => rfl
    | cons y ys =>
      simp only [List.cons_append, List.dropLast] at ih ⊢
      simp [ih]

theorem getLast?_append_single {α : Type} (l : List α) (a : α) :
    (l ++ [a]).getLast? = some a := by
  induction l with
  | nil => rfl
  | cons x xs ih =>
    cases xs with
    | nil => rfl
    | cons y ys =>
      simp only [List.cons_append, List.getLast?] at ih ⊢
      simp [ih]

theorem takeWhile_append_stop {α : Type} (p : α → Bool) (xs : List α) (y : α)
    (ys : List α) (hxs : ∀ x ∈ xs, p x = true) (hy : p y = false) :
    (xs ++ y :: ys).takeWhile p = xs := by
  induction xs with
  | nil => simp [List.takeWhile, hy]
  | cons x rest ih =>
    have hx : p x = true := hxs x (by simp)
    have hrest : ∀ x ∈ rest, p x = true := fun z hz => hxs z (by simp [hz])
    simp [List.takeWhile, hx, ih hrest]

theorem string_data_append (s t : String) : (s ++ t).data = s.data ++ t.data := rfl

/-! ## CommandRunner (`_RunCommandForOutputAndLog`, `_CommandListToCommandString`) -/

/-- Mirrors `_CommandListToCommandString`: each element of the command list
is wrapped in double quotes and the results are joined with single spaces. -/
def commandListToCommandString (cmd : List String) : String :=
  String.intercalate (" ") (cmd.map (fun segment => "\"" ++ segment ++ "\""))

/-- Oracle for the behaviour of the child process spawned by `Popen`:
`duration` is how long the process would run, `fullOutput` the merged
stdout+stderr text produced on normal completion, `outputBeforeKill` the
merged text accumulated by the time the process is killed after a timeout,
and `returncode` the process's own exit status. -/
structure ProcBehavior where
  duration : Nat
  fullOutput : String
  outputBeforeKill : String
  returncode : Int
  deriving DecidableEq

/-- Result of one `_RunCommandForOutputAndLog` invocation.  `execCmd` and
`execEnv` are the argument vector and environment actually handed to
`Popen`; `killed` records whether `proc.kill()` ran; `logEntry` is the
transcript block written to the log. -/
structure RunResult where
  execCmd : List String
  execEnv : Dict
  killed : Bool
  output : String
  retCode : Int
  logEntry : String
  deriving DecidableEq

/-- Shallow embedding of `_RunCommandForOutputAndLog`.  `communicate`
raises `TimeoutExpired` exactly when the process runs longer than the
timeout; in that case the process is killed and the partial output
retrieved.  The transcript block is appended to the log unconditionally,
and the returned code is 1 on timeout, the process's own code otherwise. -/
def runCommandForOutputAndLog (cmd : List String) (env : Dict)
    (log : List String) (proc : ProcBehavior) (timeout : Nat) :
    RunResult × List String :=
  let timeouted := timeout < proc.duration
  let output := if timeouted then proc.outputBeforeKill else proc.fullOutput
  let entry := "Command:\n" ++ commandListToCommandString cmd ++ "\n" ++ output
    ++ "\nReturn code: "
    ++ (if timeouted then "TIMEOUT" else toString proc.returncode) ++ "\n"
  let retCode : Int := if timeouted then 1 else proc.returncode
  (⟨cmd, env, timeouted, output, retCode, entry⟩, log ++ [entry])

/-- The terminal line of a transcript block that ends with a line
terminator: the maximal terminator-free suffix once the final terminator is
removed. -/
def terminalLine (cs : List Char) : List Char :=
  (cs.dropLast.reverse.takeWhile (fun c => c ≠ '\n')).reverse

theorem terminalLine_of_append (a : List Char) (b : List Char)
    (hb : ∀ c ∈ b, c ≠ '\n') :
    terminalLine (a ++ '\n' :: (b ++ ['\n'])) = b := by
  have h1 : a ++ '\n' :: (b ++ ['\n']) = (a ++ '\n' :: b) ++ ['\n'] := by
    simp
  rw [terminalLine, h1, dropLast_append_single]
  rw [List.reverse_append]
  have h2 : ('\n' :: b).reverse = b.reverse ++ ['\n'] := by simp
  rw [h2]
  have h3 : b.reverse ++ ['\n'] ++ a.reverse = b.reverse ++ '\n' :: a.reverse := by
    simp
  rw [h3]
  rw [takeWhile_append_stop _ _ _ _ (fun x hx => by
    have : x ∈ b := List.mem_reverse.mp hx
    simpa using hb x this) (by simp)]
  simp

/-- The transcript block decomposes so that its terminal line is the
return-code line. -/
theorem logEntry_decomp (cmd : List String) (env : Dict) (log : List String)
    (proc : ProcBehavior) (timeout : Nat) :
    (runCommandForOutputAndLog cmd env log proc timeout).1.logEntry
      = ("Command:\n" ++ commandListToCommandString cmd ++ "\n"
          ++ (runCommandForOutputAndLog cmd env log proc timeout).1.output)
        ++ ("\nReturn code: "
          ++ (if timeout < proc.duration then "TIMEOUT"
              else toString proc.returncode) ++ "\n") := by
  simp [runCommandForOutputAndLog, String.append_assoc]

/-! ## Dalvik cache invalidation (`DALVIK_CACHE_ARCHS`, `_DexArchCachePaths`,
`HostTestEnv._EmptyDexCache`) -/

/-- Architectures supported in the dalvik cache (module constant). -/
def DALVIK_CACHE_ARCHS : List String := ["arm", "arm64", "x86", "x86_64"]

/-- Mirrors `_DexArchCachePaths`: the architecture specific cache
directories under `android_data_path`. -/
def dexArchCachePaths (androidDataPath : FPath) : List FPath :=
  DALVIK_CACHE_ARCHS.map (fun arch => androidDataPath ++ ["dalvik-cache", arch])

/-- Loop body of `_EmptyDexCache`: for one name of the directory listing,
unlink `d/n` when it is a regular file. -/
def cacheScanStep (d : FPath) (acc : Fs) (n : String) : Fs :=
  if isfile acc (d ++ [n]) then unlink acc (d ++ [n]) else acc

/-- One architecture directory pass of `_EmptyDexCache`: iterate over the
snapshot `os.listdir(d)` and unlink every regular file. -/
def emptyDexCacheStep (fs : Fs) (d : FPath) : Fs :=
  (listdir fs d).foldl (cacheScanStep d) fs

/-- Mirrors `HostTestEnv._EmptyDexCache`: apply the pass to every
architecture cache directory in order. -/
def emptyDexCache (fs : Fs) (envPath : FPath) : Fs :=
  (dexArchCachePaths envPath).foldl emptyDexCacheStep fs

theorem append_single_inj {α : Type} (d1 d2 : List α) (n1 n2 : α)
    (h : d1 ++ [n1] = d2 ++ [n2]) : d1 = d2 ∧ n1 = n2 := by
  have h1 : d1 = d2 := by
    have := congrArg List.dropLast h
    rwa [dropLast_append_single, dropLast_append_single] at this
  have h2 : some n1 = some n2 := by
    have := congrArg List.getLast? h
    rwa [getLast?_append_single, getLast?_append_single] at this
  exact ⟨h1, Option.some.inj h2⟩

theorem mem_unlink_of_ne (fs : Fs) (p : FPath) (pe : FPath × FsEntry)
    (hmem : pe ∈ fs) (hne : pe.1 ≠ p) : pe ∈ unlink fs p := by
  simp only [unlink, List.mem_filter]
  exact ⟨hmem, by simpa using hne⟩

theorem mem_of_mem_unlink (fs : Fs) (p : FPath) (pe : FPath × FsEntry)
    (hmem : pe ∈ unlink fs p) : pe ∈ fs :=
  List.mem_of_mem_filter hmem

theorem not_mem_unlink (fs : Fs) (p : FPath) (e : FsEntry) :
    (p, e) ∉ unlink fs p := by
  simp [unlink, List.mem_filter]

theorem nodup_unlink (fs : Fs) (p : FPath)
    (h : (fs.map Prod.fst).Nodup) : ((unlink fs p).map Prod.fst).Nodup :=
  h.sublist (List.Sublist.map Prod.fst (List.filter_sublist fs))

theorem fsFind_of_mem_nodup (fs : Fs) (p : FPath) (e : FsEntry)
    (hnd : (fs.map Prod.fst).Nodup) (hmem : (p, e) ∈ fs) :
    fsFind fs p = some e := by
  induction fs with
  | nil => cases hmem
  | cons pe rest ih =>
    simp only [List.map_cons, List.nodup_cons] at hnd
    rcases List.mem_cons.mp hmem with h | h
    · rw [fsFind]
      have : pe.1 = p := by rw [← h]
      simp [List.find?, this, ← h]
    · have hne : pe.1 ≠ p := by
        intro hcontra
        exact hnd.1 (hcontra ▸ (List.mem_map.mpr ⟨(p, e), h, rfl⟩))
      have := ih hnd.2 h
      rw [fsFind] at this ⊢
      simpa [List.find?, hne] using this

theorem isfile_eq_false_of_dir (fs : Fs) (p : FPath)
    (hnd : (fs.map Prod.fst).Nodup) (hmem : (p, FsEntry.dir) ∈ fs) :
    isfile fs p = false := by
  simp [isfile, fsFind_of_mem_nodup fs p FsEntry.dir hnd hmem]

theorem isfile_eq_true_of_file (fs : Fs) (p : FPath) (c : String)
    (hnd : (fs.map Prod.fst).Nodup) (hmem : (p, FsEntry.file c) ∈ fs) :
    isfile fs p = true := by
  simp [isfile, fsFind_of_mem_nodup fs p (FsEntry.file c) hnd hmem]

theorem mem_listdir (fs : Fs) (d : FPath) (n : String) (e : FsEntry)
    (h : (d ++ [n], e) ∈ fs) : n ∈ listdir fs d := by
  simp only [listdir, List.mem_filterMap]
  refine ⟨(d ++ [n], e), h, ?_⟩
  simp [getLast?_append_single, dropLast_append_single]

theorem mem_scanFold (d : FPath) :
    ∀ (l : List String) (fs : Fs) (pe : FPath × FsEntry),
      pe ∈ l.foldl (cacheScanStep d) fs → pe ∈ fs := by
  intro l
  induction l with
  | nil => intro fs pe h; exact h
  | cons n rest ih =>
    intro fs pe h
    have h1 : pe ∈ cacheScanStep d fs n := ih (cacheScanStep d fs n) pe h
    by_cases hf : isfile fs (d ++ [n])
    · simp only [cacheScanStep, hf, if_true] at h1
      exact mem_of_mem_unlink _ _ _ h1
    · simpa [cacheScanStep, hf] using h1

theorem mem_scanFold_preserve (d : FPath) :
    ∀ (l : List String) (fs : Fs) (pe : FPath × FsEntry),
      pe ∈ fs → (∀ n : String, pe.1 ≠ d ++ [n]) →
      pe ∈ l.foldl (cacheScanStep d) fs := by
  intro l
  induction l with
  | nil => intro fs pe h _; exact h
  | cons n rest ih =>
    intro fs pe h hne
    refine ih (cacheScanStep d fs n) pe ?_ hne
    by_cases hf : isfile fs (d ++ [n])
    · simp only [cacheScanStep, hf, if_true]
      exact mem_unlink_of_ne _ _ _ h (hne n)
    · simpa [cacheScanStep, hf] using h

theorem nodup_scanFold (d : FPath) :
    ∀ (l : List String) (fs : Fs),
      (fs.map Prod.fst).Nodup →
      ((l.foldl (cacheScanStep d) fs).map Prod.fst).Nodup := by
  intro l
  induction l with
  | nil => intro fs h; exact h
  | cons n rest ih =>
    intro fs h
    refine ih (cacheScanStep d fs n) ?_
    by_cases hf : isfile fs (d ++ [n])
    · simp only [cacheScanStep, hf, if_true]
      exact nodup_unlink _ _ h
    · simpa [cacheScanStep, hf] using h

theorem dir_mem_scanFold (d : FPath) :
    ∀ (l : List String) (fs : Fs) (p : FPath),
      (fs.map Prod.fst).Nodup → (p, FsEntry.dir) ∈ fs →
      (p, FsEntry.dir) ∈ l.foldl (cacheScanStep d) fs := by
  intro l
  induction l with
  | nil => intro fs p _ h; exact h
  | cons n rest ih =>
    intro fs p hnd h
    have hstepnd : ((cacheScanStep d fs n).map Prod.fst).Nodup := by
      by_cases hf : isfile fs (d ++ [n])
      · simp only [cacheScanStep, hf, if_true]
        exact nodup_unlink _ _ hnd
      · simpa [cacheScanStep, hf] using hnd
    refine ih (cacheScanStep d fs n) p hstepnd ?_
    by_cases hf : isfile fs (d ++ [n])
    · simp only [cacheScanStep, hf, if_true]
      refine mem_unlink_of_ne _ _ _ h ?_
      intro hcontra
      have hp : p = d ++ [n] := hcontra
      have hfalse : isfile fs p = false := isfile_eq_false_of_dir fs p hnd h
      rw [hp] at hfalse
      rw [hfalse] at hf
      exact Bool.false_ne_true hf
    · simpa [cacheScanStep, hf] using h

theorem no_file_scanFold (d : FPath) :
    ∀ (l : List String) (fs : Fs),
      (fs.map Prod.fst).Nodup →
      (∀ (n c : String), (d ++ [n], FsEntry.file c) ∈ fs → n ∈ l) →
      ∀ (n c : String), (d ++ [n], FsEntry.file c) ∉ l.foldl (cacheScanStep d) fs := by
  intro l
  induction l with
  | nil =>
    intro fs _ hall n c hmem
    exact absurd (hall n c hmem) (List.not_mem_nil n)
  | cons n0 rest ih =>
    intro fs hnd hall n c hmem
    have hstepnd : ((cacheScanStep d fs n0).map Prod.fst).Nodup := by
      by_cases hf : isfile fs (d ++ [n0])
      · simp only [cacheScanStep, hf, if_true]
        exact nodup_unlink _ _ hnd
      · simpa [cacheScanStep, hf] using hnd
    have hall' : ∀ (n c : String),
        (d ++ [n], FsEntry.file c) ∈ cacheScanStep d fs n0 → n ∈ rest := by
      intro n1 c1 hmem1
      have hmemfs : (d ++ [n1], FsEntry.file c1) ∈ fs := by
        by_cases hf : isfile fs (d ++ [n0])
        · simp only [cacheScanStep, hf, if_true] at hmem1
          exact mem_of_mem_unlink _ _ _ hmem1
        · simpa [cacheScanStep, hf] using hmem1
      rcases List.mem_cons.mp (hall n1 c1 hmemfs) with h | h
      · exfalso
        subst h
        by_cases hf : isfile fs (d ++ [n1])
        · simp only [cacheScanStep, hf, if_true] at hmem1
          exact not_mem_unlink _ _ _ hmem1
        · exact hf (by simpa using
            isfile_eq_true_of_file fs (d ++ [n1]) c1 hnd hmemfs)
      · exact h
    exact ih (cacheScanStep d fs n0) hstepnd hall' n c hmem

theorem mem_emptyDexCacheStep (fs : Fs) (d : FPath) (pe : FPath × FsEntry)
    (h : pe ∈ emptyDexCacheStep fs d) : pe ∈ fs :=
  mem_scanFold d (listdir fs d) fs pe h

theorem emptyDexCacheStep_preserve (fs : Fs) (d : FPath)
    (pe : FPath × FsEntry) (h : pe ∈ fs) (hne : ∀ n : String, pe.1 ≠ d ++ [n]) :
    pe ∈ emptyDexCacheStep fs d :=
  mem_scanFold_preserve d (listdir fs d) fs pe h hne

theorem emptyDexCacheStep_dir (fs : Fs) (d : FPath) (p : FPath)
    (hnd : (fs.map Prod.fst).Nodup) (h : (p, FsEntry.dir) ∈ fs) :
    (p, FsEntry.dir) ∈ emptyDexCacheStep fs d :=
  dir_mem_scanFold d (listdir fs d) fs p hnd h

theorem emptyDexCacheStep_no_file (fs : Fs) (d : FPath)
    (hnd : (fs.map Prod.fst).Nodup) (n c : String) :
    (d ++ [n], FsEntry.file c) ∉ emptyDexCacheStep fs d :=
  no_file_scanFold d (listdir fs d) fs hnd
    (fun n1 _ hm => mem_listdir fs d n1 _ hm) n c

theorem nodup_emptyDexCacheStep (fs : Fs) (d : FPath)
    (hnd : (fs.map Prod.fst).Nodup) :
    ((emptyDexCacheStep fs d).map Prod.fst).Nodup :=
  nodup_scanFold d (listdir fs d) fs hnd

theorem mem_cacheFold :
    ∀ (ds : List FPath) (fs : Fs) (pe : FPath × FsEntry),
      pe ∈ ds.foldl emptyDexCacheStep fs → pe ∈ fs := by
  intro ds
  induction ds with
  | nil => intro fs pe h; exact h
  | cons d rest ih =>
    intro fs pe h
    exact mem_emptyDexCacheStep fs d pe (ih (emptyDexCacheStep fs d) pe h)

theorem nodup_cacheFold :
    ∀ (ds : List FPath) (fs : Fs), (fs.map Prod.fst).Nodup →
      ((ds.foldl emptyDexCacheStep fs).map Prod.fst).Nodup := by
  intro ds
  induction ds with
  | nil => intro fs h; exact h
  | cons d rest ih =>
    intro fs h
    exact ih (emptyDexCacheStep fs d) (nodup_emptyDexCacheStep fs d h)

theorem cacheFold_preserve :
    ∀ (ds : List FPath) (fs : Fs) (pe : FPath × FsEntry),
      pe ∈ fs → (∀ d ∈ ds, ∀ n : String, pe.1 ≠ d ++ [n]) →
      pe ∈ ds.foldl emptyDexCacheStep fs := by
  intro ds
  induction ds with
  | nil => intro fs pe h _; exact h
  | cons d rest ih =>
    intro fs pe h hne
    refine ih (emptyDexCacheStep fs d) pe ?_ (fun d1 hd1 => hne d1 (by simp [hd1]))
    exact emptyDexCacheStep_preserve fs d pe h (hne d (by simp))

theorem cacheFold_dir :
    ∀ (ds : List FPath) (fs : Fs) (p : FPath),
      (fs.map Prod.fst).Nodup → (p, FsEntry.dir) ∈ fs →
      (p, FsEntry.dir) ∈ ds.foldl emptyDexCacheStep fs := by
  intro ds
  induction ds with
  | nil => intro fs p _ h; exact h
  | cons d rest ih =>
    intro fs p hnd h
    exact ih (emptyDexCacheStep fs d) p (nodup_emptyDexCacheStep fs d hnd)
      (emptyDexCacheStep_dir fs d p hnd h)

theorem cacheFold_no_file :
    ∀ (ds : List FPath) (fs : Fs), (fs.map Prod.fst).Nodup →
      ∀ d ∈ ds, ∀ (n c : String),
        (d ++ [n], FsEntry.file c) ∉ ds.foldl emptyDexCacheStep fs := by
  intro ds
  induction ds with
  | nil => intro fs _ d hd; cases hd
  | cons d0 rest ih =>
    intro fs hnd d hd n c hmem
    rcases List.mem_cons.mp hd with h | h
    · subst h
      have h1 : (d ++ [n], FsEntry.file c) ∈ emptyDexCacheStep fs d :=
        mem_cacheFold rest (emptyDexCacheStep fs d) _ hmem
      exact emptyDexCacheStep_no_file fs d hnd n c h1
    · exact ih (emptyDexCacheStep fs d0)
        (nodup_emptyDexCacheStep fs d0 hnd) d h n c hmem

/-- Packaged facts about `emptyDexCache`: it never adds entries, it
preserves key uniqueness, it removes every regular file lying directly in
one of the architecture cache directories, it leaves every directory entry
in place, and it leaves every entry that is not a direct child of an
architecture cache directory in place. -/
theorem emptyDexCache_spec (fs : Fs) (envPath : FPath)
    (hnd : (fs.map Prod.fst).Nodup) :
    (∀ pe ∈ emptyDexCache fs envPath, pe ∈ fs)
    ∧ (∀ d ∈ dexArchCachePaths envPath, ∀ (n c : String),
        (d ++ [n], FsEntry.file c) ∉ emptyDexCache fs envPath)
    ∧ (∀ p : FPath, (p, FsEntry.dir) ∈ fs →
        (p, FsEntry.dir) ∈ emptyDexCache fs envPath)
    ∧ (∀ pe ∈ fs, (∀ d ∈ dexArchCachePaths envPath, ∀ n : String,
        pe.1 ≠ d ++ [n]) → pe ∈ emptyDexCache fs envPath) := by
  refine ⟨?_, ?_, ?_, ?_⟩
  · intro pe h; exact mem_cacheFold _ fs pe h
  · intro d hd n c h; exact cacheFold_no_file _ fs hnd d hd n c h
  · intro p h; exact cacheFold_dir _ fs p hnd h
  · intro pe h hne; exact cacheFold_preserve _ fs pe h hne

/-! ## Host environment (`GetEnvVariableOrError`, `HostTestEnv`) -/

/-- Errors that can escape `HostTestEnv.__init__`: the script's own
`FatalError` and a Python `KeyError` (raised by `self._shell_env['PATH']`
when the inherited environment lacks `PATH`). -/
inductive InitError where
  | fatalError (msg : String)
  | keyError (key : String)
  deriving DecidableEq

/-- Mirrors `GetEnvVariableOrError`: value of the variable, or
`FatalError('{name} environmental variable not set.')`. -/
def getEnvVariableOrError (osEnviron : Dict) (variableName : String) :
    Except InitError String :=
  match dictGet osEnviron variableName with
  | none => Except.error (InitError.fatalError
      (variableName ++ " environmental variable not set."))
  | some top => Except.ok top

/-- Observable construction-time effects of `HostTestEnv.__init__`, in
program order. -/
inductive InitEvent where
  | mkdtemp (p : FPath)
  | openLog (p : FPath)
  | mkdir (p : FPath)
  | getEnv (name : String)
  deriving DecidableEq

/-- The state a successfully constructed `HostTestEnv` carries: its scratch
directory and its `_shell_env` dict. -/
structure HostEnvState where
  envPath : FPath
  shellEnv : Dict
  deriving DecidableEq

/-- Rendering of a component path back to the slash-joined string form used
for environment variable values. -/
def pathStr (p : FPath) : String := String.intercalate ("/") p

/-- Shallow embedding of `HostTestEnv.__init__`.  `envPath` is the fresh
directory name chosen by `mkdtemp`; `osEnviron` is the inherited host
environment (`os.environ`).  Returns the construction events in program
order together with either the constructed state or the raised error. -/
def hostTestEnvInit (osEnviron : Dict) (x64 : Bool) (envPath : FPath) :
    List InitEvent × Except InitError HostEnvState :=
  let ev :=
    [InitEvent.mkdtemp envPath, InitEvent.openLog (envPath ++ ["log"]),
     InitEvent.mkdir (envPath ++ ["dalvik-cache"])]
    ++ (dexArchCachePaths envPath).map InitEvent.mkdir
  let lib := if x64 then "lib64" else "lib"
  match getEnvVariableOrError osEnviron ("ANDROID_HOST_OUT") with
  | Except.error e =>
    (ev ++ [InitEvent.getEnv ("ANDROID_HOST_OUT")], Except.error e)
  | Except.ok androidRoot =>
    let libraryPath := androidRoot ++ "/" ++ lib
    let path := androidRoot ++ "/bin"
    let e1 := dictInsert osEnviron ("ANDROID_DATA") (pathStr envPath)
    let e2 := dictInsert e1 ("ANDROID_ROOT") androidRoot
    let e3 := dictInsert e2 ("LD_LIBRARY_PATH") libraryPath
    let e4 := dictInsert e3 ("DYLD_LIBRARY_PATH") libraryPath
    match dictGet e4 ("PATH") with
    | none =>
      (ev ++ [InitEvent.getEnv ("ANDROID_HOST_OUT")],
       Except.error (InitError.keyError ("PATH")))
    | some oldPath =>
      let e5 := dictInsert e4 ("PATH") (path ++ ":" ++ oldPath)
      let e6 := dictInsert e5 ("LD_USE_LOAD_BIAS") ("1")
      (ev ++ [InitEvent.getEnv ("ANDROID_HOST_OUT")],
       Except.ok ⟨envPath, e6⟩)

/-- Mirrors `HostTestEnv.CreateFile`: with a name, `open(env/name, 'w+')`
creates (or truncates) that file; without a name, `NamedTemporaryFile`
creates a file under the fresh name `tempName` chosen by the library. -/
def hostCreateFile (fs : Fs) (envPath : FPath) (name : Option String)
    (tempName : String) : Fs × FPath :=
  match name with
  | none => (fsWrite fs (envPath ++ [tempName]) (""), envPath ++ [tempName])
  | some n => (fsWrite fs (envPath ++ [n]) (""), envPath ++ [n])

/-- Content written by `HostTestEnv.WriteLines`: each line followed by a
single line terminator, concatenated in order. -/
def linesContent (lines : List String) : String :=
  String.join (lines.map (fun line => line ++ "\n"))

/-- Mirrors `HostTestEnv.WriteLines`: `open(file_path, 'w')` truncates or
creates, then the terminated lines are written. -/
def hostWriteLines (fs : Fs) (filePath : FPath) (lines : List String) : Fs :=
  fsWrite fs filePath (linesContent lines)

/-! ## Reading a line-oriented file back -/

/-- Split a character sequence at every line terminator. -/
def splitNl : List Char → List (List Char)
  | [] => [[]]
  | c :: cs =>
    if c = '\n' then [] :: splitNl cs
    else
      match splitNl cs with
      | [] => [[c]]
      | h :: t => (c :: h) :: t

/-- Lines of a file as a reader sees them: the segments between
terminators, without a phantom empty line after a final terminator. -/
def fileLines (cs : List Char) : List (List Char) :=
  match (splitNl cs).getLast? with
  | some [] => (splitNl cs).dropLast
  | _ => splitNl cs

theorem splitNl_chunk (a : List Char) (rest : List Char)
    (ha : ∀ c ∈ a, c ≠ '\n') :
    splitNl (a ++ '\n' :: rest) = a :: splitNl rest := by
  induction a with
  | nil => simp [splitNl]
  | cons c cs ih =>
    have hc : c ≠ '\n' := ha c (by simp)
    have hcs : ∀ x ∈ cs, x ≠ '\n' := fun x hx => ha x (by simp [hx])
    simp only [List.cons_append, splitNl, if_neg hc, List.append_eq]
    rw [ih hcs]

theorem foldl_append_data (L : List String) :
    ∀ s : String, (L.foldl (fun r t => r ++ t) s).data
      = s.data ++ (L.map String.data).flatten := by
  induction L with
  | nil => intro s; simp
  | cons l rest ih =>
    intro s
    simp only [List.foldl_cons, ih, string_data_append, List.map_cons,
      List.flatten_cons, List.append_assoc]

theorem linesContent_data (lines : List String) :
    (linesContent lines).data = (lines.map (fun l => l.data ++ ['\n'])).flatten := by
  have h1 : (linesContent lines).data
      = ((lines.map (fun line => line ++ "\n")).map String.data).flatten := by
    simpa [linesContent, String.join] using
      foldl_append_data (lines.map (fun line => line ++ "\n")) ""
  rw [h1, List.map_map]
  congr 1

theorem splitNl_linesContent (lines : List String)
    (h : ∀ l ∈ lines, ∀ c ∈ l.data, c ≠ '\n') :
    splitNl (linesContent lines).data = lines.map String.data ++ [[]] := by
  rw [linesContent_data]
  induction lines with
  | nil => simp [splitNl]
  | cons l rest ih =>
    have hl : ∀ c ∈ l.data, c ≠ '\n' := h l (by simp)
    have hrest : ∀ l1 ∈ rest, ∀ c ∈ l1.data, c ≠ '\n' :=
      fun l1 h1 => h l1 (by simp [h1])
    rw [List.map_cons, List.flatten_cons]
    have hshift : (l.data ++ ['\n'])
        ++ ((rest.map (fun l1 => l1.data ++ ['\n'])).flatten)
        = l.data ++ '\n' :: ((rest.map (fun l1 => l1.data ++ ['\n'])).flatten) := by
      simp
    rw [hshift, splitNl_chunk l.data _ hl, ih hrest]
    simp

theorem fileLines_linesContent (lines : List String)
    (h : ∀ l ∈ lines, ∀ c ∈ l.data, c ≠ '\n') :
    fileLines (linesContent lines).data = lines.map String.data := by
  rw [fileLines, splitNl_linesContent lines h, getLast?_append_single]
  simp only []
  exact dropLast_append_single _ _

/-! ## Host `RunCommand` -/

/-- The `if not env_updates: env_updates = {}` normalization shared by both
`RunCommand` implementations: `None` (and an already empty dict) becomes an
empty dict. -/
def normUpdates : Option Dict → Dict
  | none => []
  | some d => d

/-- Observable events of one `HostTestEnv.RunCommand` call, in program
order: the cache invalidation (with the filesystem it produces) and the
command execution (with the command, the resolved environment, and the
filesystem the child process observes). -/
inductive HostEvent where
  | invalidate (fsAfter : Fs)
  | exec (cmd : List String) (env : Dict) (fs : Fs)
  deriving DecidableEq

structure HostRunResult where
  events : List HostEvent
  run : RunResult
  log : List String
  fsAfter : Fs
  deriving DecidableEq

/-- Shallow embedding of `HostTestEnv.RunCommand`: normalize the optional
override dict, empty the dex caches, overlay the overrides on
`_shell_env`, and delegate to `_RunCommandForOutputAndLog` with the default
timeout of 60. -/
def hostRunCommand (st : HostEnvState) (fs : Fs) (log : List String)
    (cmd : List String) (envUpdates : Option Dict) (proc : ProcBehavior) :
    HostRunResult :=
  let updates := normUpdates envUpdates
  let fs1 := emptyDexCache fs st.envPath
  let env := dictUpdate st.shellEnv updates
  let r := runCommandForOutputAndLog cmd env log proc 60
  ⟨[HostEvent.invalidate fs1, HostEvent.exec cmd env fs1], r.1, r.2, fs1⟩

/-! ## Device environment (`DeviceTestEnv`) -/

/-- Temporary directory path on device, as a component path. -/
def DEVICE_TMP_PATH : FPath := ["", "data", "local", "tmp"]

/-- Mirrors `DeviceTestEnv.CreateFile`: a local `NamedTemporaryFile` (whose
generated base name is `tempName`) is pushed into the device scratch
directory, so the pushed file lands at `deviceEnvPath/tempName`; the
returned path uses the caller's name when one is given, else the temp
file's name. -/
def deviceCreateFile (remoteFs : Fs) (deviceEnvPath : FPath)
    (name : Option String) (tempName : String) : Fs × FPath :=
  let pushed := fsWrite remoteFs (deviceEnvPath ++ [tempName]) ("")
  match name with
  | none => (pushed, deviceEnvPath ++ [tempName])
  | some n => (pushed, deviceEnvPath ++ [n])

/-- The part of one `DeviceTestEnv.RunCommand` call that precedes the
transport invocation: the final override dict, the caller-visible value of
the `env_updates` argument after the call (Python aliasing: a non-empty
caller dict is mutated in place, while `None` or an empty dict is replaced
by a fresh local dict), the inline-assignment fragment, and the composite
remote-shell command string. -/
structure DeviceRunPrep where
  updates : Dict
  callerEnvUpdatesAfter : Option Dict
  envUpdatesCmd : String
  commandString : String
  deriving DecidableEq

/-- Shallow embedding of `DeviceTestEnv.RunCommand` up to the call to
`_RunCommandForOutputAndLog`.  `deviceEnvPathStr` is
`self._device_env_path`. -/
def deviceRunCommand (deviceEnvPathStr : String) (cmd : List String)
    (envUpdates : Option Dict) : DeviceRunPrep :=
  let e0 := normUpdates envUpdates
  let e1 := if (dictGet e0 ("ANDROID_DATA")).isSome then e0
            else dictInsert e0 ("ANDROID_DATA") deviceEnvPathStr
  let envUpdatesCmd := String.intercalate (" ")
    (e1.map (fun kv => kv.1 ++ "=" ++ kv.2))
  let cmdStr := commandListToCommandString cmd
  let composite := "adb shell \"logcat -c && " ++ envUpdatesCmd ++ " " ++ cmdStr
    ++ " ; logcat -d -s dex2oat:* dex2oatd:*| grep -v \"^---------\" 1>&2\""
  let callerAfter : Option Dict := match envUpdates with
    | none => none
    | some d => if d = [] then some d else some e1
  ⟨e1, callerAfter, envUpdatesCmd, composite⟩

/-! ## Claim theorems -/

theorem terminalLine_entry (s status : String)
    (hstat : ∀ c ∈ status.data, c ≠ '\n') :
    terminalLine (s ++ "\nReturn code: " ++ status ++ "\n").data
      = ("Return code: ").data ++ status.data := by
  have hnl : ("\n").data = ['\n'] := rfl
  have hrc : ("\nReturn code: ").data = '\n' :: ("Return code: ").data := rfl
  have hdata : (s ++ "\nReturn code: " ++ status ++ "\n").data
      = s.data ++ '\n' :: ((("Return code: ").data ++ status.data) ++ ['\n']) := by
    simp only [string_data_append, hrc, hnl]
    simp
  rw [hdata]
  exact terminalLine_of_append s.data (("Return code: ").data ++ status.data)
    (by
      intro c hc
      rcases List.mem_append.mp hc with h | h
      · have hlit : ∀ c ∈ ("Return code: ").data, c ≠ '\n' := by decide
        exact hlit c h
      · exact hstat c h)

/-- Claim C1: when a command exceeds the timeout,
`_RunCommandForOutputAndLog` kills the process, still returns the output
accumulated up to the kill, returns exit code 1 regardless of the process's
own exit status, and the terminal line of the transcript block carries the
token `TIMEOUT` (the line is `Return code: TIMEOUT`) rather than a numeric
return code; `HostTestEnv.RunCommand` (timeout 60) therefore does the
same. -/
theorem runCommand_timeout_spec (cmd : List String) (env : Dict)
    (log : List String) (proc : ProcBehavior) (timeout : Nat)
    (st : HostEnvState) (fs : Fs) (log2 : List String) (u : Option Dict)
    (h : timeout < proc.duration) (h60 : 60 < proc.duration) :
    (runCommandForOutputAndLog cmd env log proc timeout).1.killed = true
    ∧ (runCommandForOutputAndLog cmd env log proc timeout).1.output
        = proc.outputBeforeKill
    ∧ (runCommandForOutputAndLog cmd env log proc timeout).1.retCode = 1
    ∧ terminalLine (runCommandForOutputAndLog cmd env log proc timeout).1.logEntry.data
        = ("Return code: TIMEOUT").data
    ∧ (hostRunCommand st fs log2 cmd u proc).run.killed = true
    ∧ (hostRunCommand st fs log2 cmd u proc).run.retCode = 1 := by
  refine ⟨by simp [runCommandForOutputAndLog, h], by simp [runCommandForOutputAndLog, h],
    by simp [runCommandForOutputAndLog, h], ?_,
    by simp [hostRunCommand, runCommandForOutputAndLog, h60],
    by simp [hostRunCommand, runCommandForOutputAndLog, h60]⟩
  have hentry : (runCommandForOutputAndLog cmd env log proc timeout).1.logEntry
      = ("Command:\n" ++ commandListToCommandString cmd ++ "\n" ++ proc.outputBeforeKill)
        ++ "\nReturn code: " ++ ("TIMEOUT") ++ "\n" := by
    simp [runCommandForOutputAndLog, h]
  rw [hentry, terminalLine_entry _ ("TIMEOUT") (by decide)]
  decide

/-- Witness for C1 at a concrete timed-out invocation. -/
theorem runCommand_timeout_spec_witness :
    ((1 : Nat) < 100)
    ∧ (runCommandForOutputAndLog ["sleep", "1000"] [] []
        ⟨100, ("full"), ("part"), 0⟩ 1).1.killed = true
    ∧ (runCommandForOutputAndLog ["sleep", "1000"] [] []
        ⟨100, ("full"), ("part"), 0⟩ 1).1.retCode = 1
    ∧ terminalLine (runCommandForOutputAndLog ["sleep", "1000"] [] []
        ⟨100, ("full"), ("part"), 0⟩ 1).1.logEntry.data
        = ("Return code: TIMEOUT").data := by
  have h := runCommand_timeout_spec ["sleep", "1000"] [] []
    ⟨100, ("full"), ("part"), 0⟩ 1 ⟨["", "tmp", "bs"], []⟩ [] [] none
    (by decide) (by decide)
  exact ⟨by decide, h.1, h.2.2.1, h.2.2.2.1⟩

/-- Claim C2: when a command completes within the timeout,
`_RunCommandForOutputAndLog` (and hence `HostTestEnv.RunCommand`) returns
the merged stdout+stderr text together with the process's actual exit
code; a non-zero code is returned as data (the embedding's return type is a
plain pair, there is no exceptional outcome on non-zero codes), and the
process is not killed. -/
theorem runCommand_normal_spec (cmd : List String) (env : Dict)
    (log : List String) (proc : ProcBehavior) (timeout : Nat)
    (st : HostEnvState) (fs : Fs) (log2 : List String) (u : Option Dict)
    (h : proc.duration ≤ timeout) (h60 : proc.duration ≤ 60) :
    (runCommandForOutputAndLog cmd env log proc timeout).1.output = proc.fullOutput
    ∧ (runCommandForOutputAndLog cmd env log proc timeout).1.retCode = proc.returncode
    ∧ (runCommandForOutputAndLog cmd env log proc timeout).1.killed = false
    ∧ (hostRunCommand st fs log2 cmd u proc).run.output = proc.fullOutput
    ∧ (hostRunCommand st fs log2 cmd u proc).run.retCode = proc.returncode := by
  have hnt : ¬ (timeout < proc.duration) := Nat.not_lt.mpr h
  have hnt60 : ¬ ((60 : Nat) < proc.duration) := Nat.not_lt.mpr h60
  exact ⟨by simp [runCommandForOutputAndLog, hnt],
    by simp [runCommandForOutputAndLog, hnt],
    by simp [runCommandForOutputAndLog, hnt],
    by simp [hostRunCommand, runCommandForOutputAndLog, hnt60],
    by simp [hostRunCommand, runCommandForOutputAndLog, hnt60]⟩

/-- Witness for C2 at a concrete invocation whose process exits with the
non-zero code 7 within the timeout: the code comes back as data. -/
theorem runCommand_normal_spec_witness :
    ((3 : Nat) ≤ 60)
    ∧ (runCommandForOutputAndLog ["false"] [] [] ⟨3, ("out"), (""), 7⟩ 60).1.output
        = ("out")
    ∧ (runCommandForOutputAndLog ["false"] [] [] ⟨3, ("out"), (""), 7⟩ 60).1.retCode = 7
    ∧ (runCommandForOutputAndLog ["false"] [] [] ⟨3, ("out"), (""), 7⟩ 60).1.killed
        = false := by
  have h := runCommand_normal_spec ["false"] [] [] ⟨3, ("out"), (""), 7⟩ 60
    ⟨["", "tmp", "bs"], []⟩ [] [] none (by decide) (by decide)
  exact ⟨by decide, h.1, h.2.1, h.2.2.1⟩

/-- Claim C3: every `_RunCommandForOutputAndLog` invocation appends exactly
one transcript block to the log — timeout or not — consisting of the
literal `Command:` line, the command with each argument wrapped in double
quotes and space-joined, the captured output, and the terminal status
line; execution receives the argument vector `cmd` itself, the quoted
string being used only in the log. -/
theorem runCommand_transcript_spec (cmd : List String) (env : Dict)
    (log : List String) (proc : ProcBehavior) (timeout : Nat) :
    (runCommandForOutputAndLog cmd env log proc timeout).2
      = log ++ [(runCommandForOutputAndLog cmd env log proc timeout).1.logEntry]
    ∧ (runCommandForOutputAndLog cmd env log proc timeout).2.length = log.length + 1
    ∧ (runCommandForOutputAndLog cmd env log proc timeout).1.logEntry
      = "Command:\n" ++ commandListToCommandString cmd ++ "\n"
        ++ (runCommandForOutputAndLog cmd env log proc timeout).1.output
        ++ "\nReturn code: "
        ++ (if timeout < proc.duration then ("TIMEOUT") else toString proc.returncode)
        ++ "\n"
    ∧ commandListToCommandString cmd
      = String.intercalate (" ") (cmd.map (fun segment => "\"" ++ segment ++ "\""))
    ∧ (runCommandForOutputAndLog cmd env log proc timeout).1.execCmd = cmd
    ∧ (runCommandForOutputAndLog cmd env log proc timeout).1.execEnv = env := by
  refine ⟨rfl, by simp [runCommandForOutputAndLog], ?_, rfl, rfl, rfl⟩
  by_cases h : timeout < proc.duration <;> simp [runCommandForOutputAndLog, h]

/-- Claim C4: every `HostTestEnv.RunCommand` call performs the cache
invalidation strictly before the command executes (the exec event observes
the invalidated filesystem), the invalidation targets exactly the four
architectures arm, arm64, x86, x86_64, it removes every regular file lying
directly inside each architecture cache directory, and it removes nothing
else — directories and entries inside subdirectories survive. -/
theorem hostRunCommand_invalidation_spec (st : HostEnvState) (fs : Fs)
    (log : List String) (cmd : List String) (u : Option Dict)
    (proc : ProcBehavior) (hnd : (fs.map Prod.fst).Nodup) :
    (hostRunCommand st fs log cmd u proc).events
      = [HostEvent.invalidate (emptyDexCache fs st.envPath),
         HostEvent.exec cmd (dictUpdate st.shellEnv (normUpdates u))
           (emptyDexCache fs st.envPath)]
    ∧ dexArchCachePaths st.envPath
      = [st.envPath ++ ["dalvik-cache", "arm"],
         st.envPath ++ ["dalvik-cache", "arm64"],
         st.envPath ++ ["dalvik-cache", "x86"],
         st.envPath ++ ["dalvik-cache", "x86_64"]]
    ∧ (∀ d ∈ dexArchCachePaths st.envPath, ∀ (n c : String),
        (d ++ [n], FsEntry.file c) ∉ emptyDexCache fs st.envPath)
    ∧ (∀ p : FPath, (p, FsEntry.dir) ∈ fs →
        (p, FsEntry.dir) ∈ emptyDexCache fs st.envPath)
    ∧ (∀ pe ∈ fs, (∀ d ∈ dexArchCachePaths st.envPath, ∀ n : String,
        pe.1 ≠ d ++ [n]) → pe ∈ emptyDexCache fs st.envPath)
    ∧ (∀ pe ∈ emptyDexCache fs st.envPath, pe ∈ fs) := by
  obtain ⟨h1, h2, h3, h4⟩ := emptyDexCache_spec fs st.envPath hnd
  exact ⟨rfl, rfl, h2, h3, h4, h1⟩

/-- Witness for C4 on a concrete filesystem holding a cached file, a
subdirectory of a cache directory with a file inside it, and an unrelated
file: the cached file is removed, everything else survives. -/
theorem hostRunCommand_invalidation_spec_witness :
    ((([(["", "tmp", "bs", "dalvik-cache", "arm", "a.dex"], FsEntry.file ("x")),
        (["", "tmp", "bs", "dalvik-cache", "arm", "sub"], FsEntry.dir),
        (["", "tmp", "bs", "dalvik-cache", "arm", "sub", "keep.txt"], FsEntry.file ("y")),
        (["", "tmp", "bs", "other.txt"], FsEntry.file ("z"))] : Fs).map Prod.fst).Nodup)
    ∧ (["", "tmp", "bs", "dalvik-cache", "arm"] ++ ["a.dex"], FsEntry.file ("x"))
        ∉ emptyDexCache
          [(["", "tmp", "bs", "dalvik-cache", "arm", "a.dex"], FsEntry.file ("x")),
           (["", "tmp", "bs", "dalvik-cache", "arm", "sub"], FsEntry.dir),
           (["", "tmp", "bs", "dalvik-cache", "arm", "sub", "keep.txt"], FsEntry.file ("y")),
           (["", "tmp", "bs", "other.txt"], FsEntry.file ("z"))]
          ["", "tmp", "bs"]
    ∧ (["", "tmp", "bs", "dalvik-cache", "arm", "sub"], FsEntry.dir)
        ∈ emptyDexCache
          [(["", "tmp", "bs", "dalvik-cache", "arm", "a.dex"], FsEntry.file ("x")),
           (["", "tmp", "bs", "dalvik-cache", "arm", "sub"], FsEntry.dir),
           (["", "tmp", "bs", "dalvik-cache", "arm", "sub", "keep.txt"], FsEntry.file ("y")),
           (["", "tmp", "bs", "other.txt"], FsEntry.file ("z"))]
          ["", "tmp", "bs"]
    ∧ (["", "tmp", "bs", "dalvik-cache", "arm", "sub", "keep.txt"], FsEntry.file ("y"))
        ∈ emptyDexCache
          [(["", "tmp", "bs", "dalvik-cache", "arm", "a.dex"], FsEntry.file ("x")),
           (["", "tmp", "bs", "dalvik-cache", "arm", "sub"], FsEntry.dir),
           (["", "tmp", "bs", "dalvik-cache", "arm", "sub", "keep.txt"], FsEntry.file ("y")),
           (["", "tmp", "bs", "other.txt"], FsEntry.file ("z"))]
          ["", "tmp", "bs"] := by
  have h := hostRunCommand_invalidation_spec ⟨["", "tmp", "bs"], []⟩
    [(["", "tmp", "bs", "dalvik-cache", "arm", "a.dex"], FsEntry.file ("x")),
     (["", "tmp", "bs", "dalvik-cache", "arm", "sub"], FsEntry.dir),
     (["", "tmp", "bs", "dalvik-cache", "arm", "sub", "keep.txt"], FsEntry.file ("y")),
     (["", "tmp", "bs", "other.txt"], FsEntry.file ("z"))]
    [] ["ls"] none ⟨1, (""), (""), 0⟩ (by decide)
  refine ⟨by decide, ?_, ?_, ?_⟩
  · exact h.2.2.1 (["", "tmp", "bs"] ++ ["dalvik-cache", "arm"]) (by decide)
      ("a.dex") ("x")
  · exact h.2.2.2.1 (["", "tmp", "bs", "dalvik-cache", "arm", "sub"]) (by decide)
  · refine h.2.2.2.2.1
      ((["", "tmp", "bs", "dalvik-cache", "arm", "sub", "keep.txt"]), FsEntry.file ("y"))
      (by decide) ?_
    intro d hd n hcontra
    have hlen := congrArg List.length hcontra
    fin_cases hd <;> simp at hlen

theorem hostTestEnvInit_ok_snd (osEnviron : Dict) (x64 : Bool) (envPath : FPath)
    (root p0 : String)
    (hroot : dictGet osEnviron ("ANDROID_HOST_OUT") = some root)
    (hpath : dictGet osEnviron ("PATH") = some p0) :
    (hostTestEnvInit osEnviron x64 envPath).2
      = Except.ok ⟨envPath,
          dictInsert (dictInsert (dictInsert (dictInsert (dictInsert (dictInsert
            osEnviron ("ANDROID_DATA") (pathStr envPath))
            ("ANDROID_ROOT") root)
            ("LD_LIBRARY_PATH") (root ++ "/" ++ (if x64 then ("lib64") else ("lib"))))
            ("DYLD_LIBRARY_PATH") (root ++ "/" ++ (if x64 then ("lib64") else ("lib"))))
            ("PATH") (root ++ "/bin" ++ ":" ++ p0))
            ("LD_USE_LOAD_BIAS") ("1")⟩ := by
  have hp4 : dictGet (dictInsert (dictInsert (dictInsert (dictInsert osEnviron
      ("ANDROID_DATA") (pathStr envPath)) ("ANDROID_ROOT") root)
      ("LD_LIBRARY_PATH") (root ++ "/" ++ (if x64 then ("lib64") else ("lib"))))
      ("DYLD_LIBRARY_PATH") (root ++ "/" ++ (if x64 then ("lib64") else ("lib"))))
      ("PATH") = some p0 := by
    simp [dictGet_dictInsert, hpath]
  simp only [hostTestEnvInit, getEnvVariableOrError, hroot]
  rw [hp4]

/-- Claim C5: in the environment actually handed to the child process by
`HostTestEnv.RunCommand`, a per-call override wins; otherwise the six
environment-specific bindings made at construction win; otherwise the
variable keeps its inherited value from the host environment. -/
theorem hostRunCommand_env_precedence (osEnviron : Dict) (x64 : Bool)
    (envPath : FPath) (root p0 : String) (updates : Dict) (st : HostEnvState)
    (fs : Fs) (log : List String) (cmd : List String) (proc : ProcBehavior)
    (k : String)
    (hok : (hostTestEnvInit osEnviron x64 envPath).2 = Except.ok st)
    (hroot : dictGet osEnviron ("ANDROID_HOST_OUT") = some root)
    (hpath : dictGet osEnviron ("PATH") = some p0)
    (hnd : (updates.map Prod.fst).Nodup) :
    dictGet ((hostRunCommand st fs log cmd (some updates) proc).run.execEnv) k
      = (dictGet updates k).orElse (fun _ =>
          if k = "ANDROID_DATA" then some (pathStr envPath)
          else if k = "ANDROID_ROOT" then some root
          else if k = "LD_LIBRARY_PATH" then
            some (root ++ "/" ++ (if x64 then ("lib64") else ("lib")))
          else if k = "DYLD_LIBRARY_PATH" then
            some (root ++ "/" ++ (if x64 then ("lib64") else ("lib")))
          else if k = "PATH" then some (root ++ "/bin" ++ ":" ++ p0)
          else if k = "LD_USE_LOAD_BIAS" then some ("1")
          else dictGet osEnviron k) := by
  have hcomp := hostTestEnvInit_ok_snd osEnviron x64 envPath root p0 hroot hpath
  rw [hok] at hcomp
  have hst := Except.ok.inj hcomp
  have hexec : (hostRunCommand st fs log cmd (some updates) proc).run.execEnv
      = dictUpdate st.shellEnv updates := rfl
  rw [hexec, hst, dictGet_dictUpdate _ _ _ hnd]
  congr 1
  funext x
  dsimp only
  simp only [dictGet_dictInsert]
  by_cases h1 : k = "ANDROID_DATA"
  · subst h1; simp
  by_cases h2 : k = "ANDROID_ROOT"
  · subst h2; simp
  by_cases h3 : k = "LD_LIBRARY_PATH"
  · subst h3; simp
  by_cases h4 : k = "DYLD_LIBRARY_PATH"
  · subst h4; simp
  by_cases h5 : k = "PATH"
  · subst h5; simp
  by_cases h6 : k = "LD_USE_LOAD_BIAS"
  · subst h6; simp
  have n1 : ¬ (("ANDROID_DATA" : String) = k) := fun h => h1 h.symm
  have n2 : ¬ (("ANDROID_ROOT" : String) = k) := fun h => h2 h.symm
  have n3 : ¬ (("LD_LIBRARY_PATH" : String) = k) := fun h => h3 h.symm
  have n4 : ¬ (("DYLD_LIBRARY_PATH" : String) = k) := fun h => h4 h.symm
  have n5 : ¬ (("PATH" : String) = k) := fun h => h5 h.symm
  have n6 : ¬ (("LD_USE_LOAD_BIAS" : String) = k) := fun h => h6 h.symm
  simp [h1, h2, h3, h4, h5, h6, n1, n2, n3, n4, n5, n6]

/-- Witness for C5: a per-call override beats the construction-time
binding of `ANDROID_DATA`, the constructed `LD_LIBRARY_PATH` binding beats
the inherited environment, and an untouched variable keeps its inherited
value. -/
theorem hostRunCommand_env_precedence_witness :
    dictGet ((hostRunCommand
        ⟨["", "tmp", "bs"],
         [("ANDROID_HOST_OUT", "/aho"), ("PATH", "/aho/bin:/usr/bin"), ("HOME", "/h"),
          ("ANDROID_DATA", "/tmp/bs"), ("ANDROID_ROOT", "/aho"),
          ("LD_LIBRARY_PATH", "/aho/lib"), ("DYLD_LIBRARY_PATH", "/aho/lib"),
          ("LD_USE_LOAD_BIAS", "1")]⟩
        [] [] ["ls"] (some [("ANDROID_DATA", "/override")])
        ⟨1, (""), (""), 0⟩).run.execEnv) ("ANDROID_DATA") = some ("/override")
    ∧ dictGet ((hostRunCommand
        ⟨["", "tmp", "bs"],
         [("ANDROID_HOST_OUT", "/aho"), ("PATH", "/aho/bin:/usr/bin"), ("HOME", "/h"),
          ("ANDROID_DATA", "/tmp/bs"), ("ANDROID_ROOT", "/aho"),
          ("LD_LIBRARY_PATH", "/aho/lib"), ("DYLD_LIBRARY_PATH", "/aho/lib"),
          ("LD_USE_LOAD_BIAS", "1")]⟩
        [] [] ["ls"] (some [("ANDROID_DATA", "/override")])
        ⟨1, (""), (""), 0⟩).run.execEnv) ("LD_LIBRARY_PATH") = some ("/aho/lib")
    ∧ dictGet ((hostRunCommand
        ⟨["", "tmp", "bs"],
         [("ANDROID_HOST_OUT", "/aho"), ("PATH", "/aho/bin:/usr/bin"), ("HOME", "/h"),
          ("ANDROID_DATA", "/tmp/bs"), ("ANDROID_ROOT", "/aho"),
          ("LD_LIBRARY_PATH", "/aho/lib"), ("DYLD_LIBRARY_PATH", "/aho/lib"),
          ("LD_USE_LOAD_BIAS", "1")]⟩
        [] [] ["ls"] (some [("ANDROID_DATA", "/override")])
        ⟨1, (""), (""), 0⟩).run.execEnv) ("HOME") = some ("/h") := by
  have h1 := hostRunCommand_env_precedence
    [("ANDROID_HOST_OUT", "/aho"), ("PATH", "/usr/bin"), ("HOME", "/h")] false
    ["", "tmp", "bs"] ("/aho") ("/usr/bin") [("ANDROID_DATA", "/override")]
    ⟨["", "tmp", "bs"],
     [("ANDROID_HOST_OUT", "/aho"), ("PATH", "/aho/bin:/usr/bin"), ("HOME", "/h"),
      ("ANDROID_DATA", "/tmp/bs"), ("ANDROID_ROOT", "/aho"),
      ("LD_LIBRARY_PATH", "/aho/lib"), ("DYLD_LIBRARY_PATH", "/aho/lib"),
      ("LD_USE_LOAD_BIAS", "1")]⟩
    [] [] ["ls"] ⟨1, (""), (""), 0⟩ ("ANDROID_DATA") (by rfl) (by rfl)
    (by rfl) (by decide)
  have h2 := hostRunCommand_env_precedence
    [("ANDROID_HOST_OUT", "/aho"), ("PATH", "/usr/bin"), ("HOME", "/h")] false
    ["", "tmp", "bs"] ("/aho") ("/usr/bin") [("ANDROID_DATA", "/override")]
    ⟨["", "tmp", "bs"],
     [("ANDROID_HOST_OUT", "/aho"), ("PATH", "/aho/bin:/usr/bin"), ("HOME", "/h"),
      ("ANDROID_DATA", "/tmp/bs"), ("ANDROID_ROOT", "/aho"),
      ("LD_LIBRARY_PATH", "/aho/lib"), ("DYLD_LIBRARY_PATH", "/aho/lib"),
      ("LD_USE_LOAD_BIAS", "1")]⟩
    [] [] ["ls"] ⟨1, (""), (""), 0⟩ ("LD_LIBRARY_PATH") (by rfl) (by rfl)
    (by rfl) (by decide)
  have h3 := hostRunCommand_env_precedence
    [("ANDROID_HOST_OUT", "/aho"), ("PATH", "/usr/bin"), ("HOME", "/h")] false
    ["", "tmp", "bs"] ("/aho") ("/usr/bin") [("ANDROID_DATA", "/override")]
    ⟨["", "tmp", "bs"],
     [("ANDROID_HOST_OUT", "/aho"), ("PATH", "/aho/bin:/usr/bin"), ("HOME", "/h"),
      ("ANDROID_DATA", "/tmp/bs"), ("ANDROID_ROOT", "/aho"),
      ("LD_LIBRARY_PATH", "/aho/lib"), ("DYLD_LIBRARY_PATH", "/aho/lib"),
      ("LD_USE_LOAD_BIAS", "1")]⟩
    [] [] ["ls"] ⟨1, (""), (""), 0⟩ ("HOME") (by rfl) (by rfl)
    (by rfl) (by decide)
  exact ⟨h1.trans (by decide), h2.trans (by decide), h3.trans (by decide)⟩

/-- Claim C6: `WriteLines` fully replaces (or creates) the target file with
exactly the given lines in order, each followed by one line terminator,
independent of any previous content (no append semantics); after
`CreateFile(name)` then `WriteLines`, reading the file back yields exactly
the given lines, with the only empty trailing segment being the artifact of
the final terminator. -/
theorem writeLines_spec (fs : Fs) (envPath : FPath) (name : String)
    (tempName : String) (lines : List String)
    (h : ∀ l ∈ lines, ∀ c ∈ l.data, c ≠ '\n') :
    fsFind (hostWriteLines (hostCreateFile fs envPath (some name) tempName).1
        (hostCreateFile fs envPath (some name) tempName).2 lines)
      (hostCreateFile fs envPath (some name) tempName).2
      = some (FsEntry.file (linesContent lines))
    ∧ (∀ fs2 : Fs, ∀ p : FPath, fsFind (hostWriteLines fs2 p lines) p
        = some (FsEntry.file (linesContent lines)))
    ∧ splitNl (linesContent lines).data = lines.map String.data ++ [[]]
    ∧ fileLines (linesContent lines).data = lines.map String.data := by
  refine ⟨?_, ?_, splitNl_linesContent lines h, fileLines_linesContent lines h⟩
  · exact fsFind_fsWrite _ _ _
  · intro fs2 p
    exact fsFind_fsWrite _ _ _

/-- Witness for C6 with the spec's end-to-end example lines a, b, c. -/
theorem writeLines_spec_witness :
    fsFind (hostWriteLines
        (hostCreateFile [] ["", "tmp", "bs"] (some ("input.txt")) ("t")).1
        (hostCreateFile [] ["", "tmp", "bs"] (some ("input.txt")) ("t")).2
        ["a", "b", "c"])
      (hostCreateFile [] ["", "tmp", "bs"] (some ("input.txt")) ("t")).2
      = some (FsEntry.file ("a\nb\nc\n"))
    ∧ fileLines (linesContent ["a", "b", "c"]).data
      = [("a").data, ("b").data, ("c").data] := by
  have h := writeLines_spec [] ["", "tmp", "bs"] ("input.txt") ("t")
    ["a", "b", "c"] (by decide)
  constructor
  · rw [h.1]
    decide
  · rw [h.2.2.2]
    decide

/-- Counterexample to claim C7 as stated: constructing a host environment
with `ANDROID_HOST_OUT` unset does fail with the FatalError naming the
variable and yields no environment, but the scratch directory and the cache
directories have already been created when the failure occurs — the
directory-creation events are part of the failing construction's trace. -/
theorem hostTestEnvInit_missing_var_counterexample :
    (hostTestEnvInit [("PATH", "/usr/bin")] false ["", "tmp", "bisection_search_x"]).2
      = Except.error (InitError.fatalError
          ("ANDROID_HOST_OUT environmental variable not set."))
    ∧ InitEvent.mkdir (["", "tmp", "bisection_search_x", "dalvik-cache"])
        ∈ (hostTestEnvInit [("PATH", "/usr/bin")] false
            ["", "tmp", "bisection_search_x"]).1
    ∧ InitEvent.mkdir (["", "tmp", "bisection_search_x", "dalvik-cache", "arm"])
        ∈ (hostTestEnvInit [("PATH", "/usr/bin")] false
            ["", "tmp", "bisection_search_x"]).1 := by
  exact ⟨by rfl, by decide, by decide⟩

/-- Claim C7 amended: construction with `ANDROID_HOST_OUT` unset raises the
FatalError naming the variable and returns no (even partially initialized)
environment, but only after the scratch directory, log file and all
architecture cache directories have been created: the construction trace is
exactly mkdtemp, open-log, the five mkdirs, then the failing variable
lookup. -/
theorem hostTestEnvInit_missing_var (osEnviron : Dict) (x64 : Bool)
    (envPath : FPath)
    (h : dictGet osEnviron ("ANDROID_HOST_OUT") = none) :
    (hostTestEnvInit osEnviron x64 envPath).2
      = Except.error (InitError.fatalError
          ("ANDROID_HOST_OUT environmental variable not set."))
    ∧ (hostTestEnvInit osEnviron x64 envPath).1
      = [InitEvent.mkdtemp envPath, InitEvent.openLog (envPath ++ ["log"]),
         InitEvent.mkdir (envPath ++ ["dalvik-cache"])]
        ++ (dexArchCachePaths envPath).map InitEvent.mkdir
        ++ [InitEvent.getEnv ("ANDROID_HOST_OUT")] := by
  constructor <;> simp [hostTestEnvInit, getEnvVariableOrError, h]

/-- Witness for C7's amended claim at a concrete environment. -/
theorem hostTestEnvInit_missing_var_witness :
    (hostTestEnvInit [("PATH", "/usr/bin"), ("HOME", "/h")] true ["", "tmp", "bs2"]).2
      = Except.error (InitError.fatalError
          ("ANDROID_HOST_OUT environmental variable not set."))
    ∧ (hostTestEnvInit [("PATH", "/usr/bin"), ("HOME", "/h")] true
        ["", "tmp", "bs2"]).1
      = [InitEvent.mkdtemp ["", "tmp", "bs2"],
         InitEvent.openLog ["", "tmp", "bs2", "log"],
         InitEvent.mkdir ["", "tmp", "bs2", "dalvik-cache"],
         InitEvent.mkdir ["", "tmp", "bs2", "dalvik-cache", "arm"],
         InitEvent.mkdir ["", "tmp", "bs2", "dalvik-cache", "arm64"],
         InitEvent.mkdir ["", "tmp", "bs2", "dalvik-cache", "x86"],
         InitEvent.mkdir ["", "tmp", "bs2", "dalvik-cache", "x86_64"],
         InitEvent.getEnv ("ANDROID_HOST_OUT")] := by
  have h := hostTestEnvInit_missing_var [("PATH", "/usr/bin"), ("HOME", "/h")]
    true ["", "tmp", "bs2"] (by decide)
  exact ⟨h.1, h.2.trans (by decide)⟩

/-- Counterexample to claim C8 as stated: a second host `CreateFile` with
the same explicit name returns exactly the path created by the first call
(it collides with a previously created file), and a device `CreateFile`
with an explicit name returns a path at which no file exists at all (the
pushed file keeps the local temp file's base name). -/
theorem createFile_counterexample :
    (hostCreateFile ((hostCreateFile [] ["", "tmp", "bs"] (some ("a")) ("t1")).1)
        ["", "tmp", "bs"] (some ("a")) ("t2")).2
      = (hostCreateFile [] ["", "tmp", "bs"] (some ("a")) ("t1")).2
    ∧ ((hostCreateFile [] ["", "tmp", "bs"] (some ("a")) ("t1")).2, FsEntry.file (""))
        ∈ (hostCreateFile [] ["", "tmp", "bs"] (some ("a")) ("t1")).1
    ∧ fsFind (deviceCreateFile [] ["", "data", "local", "tmp", "bs"]
          (some ("foo")) ("tmp123")).1
        (deviceCreateFile [] ["", "data", "local", "tmp", "bs"]
          (some ("foo")) ("tmp123")).2
      = none := by
  exact ⟨by decide, by decide, by decide⟩

/-- Claim C8 amended: a `CreateFile` call without an explicit name returns
a path in the scratch tree holding a new empty file and (given the
generated temp name is fresh) colliding with nothing already present; a
host call with an explicit name creates an empty file at scratch/name but a
repeated name reuses (and truncates) the same path; a device call with an
explicit name returns scratch/name while the pushed file lands under the
temp file's generated base name, so the returned path need not designate a
created file. -/
theorem createFile_spec (fs : Fs) (envPath : FPath) (tempName n : String)
    (rfs : Fs) (devPath : FPath)
    (hfresh : fsFind fs (envPath ++ [tempName]) = none)
    (hrfresh : fsFind rfs (devPath ++ [tempName]) = none) :
    (hostCreateFile fs envPath none tempName).2 = envPath ++ [tempName]
    ∧ fsFind (hostCreateFile fs envPath none tempName).1
        (hostCreateFile fs envPath none tempName).2 = some (FsEntry.file (""))
    ∧ fsFind fs (hostCreateFile fs envPath none tempName).2 = none
    ∧ (hostCreateFile fs envPath (some n) tempName).2 = envPath ++ [n]
    ∧ fsFind (hostCreateFile fs envPath (some n) tempName).1 (envPath ++ [n])
        = some (FsEntry.file (""))
    ∧ (deviceCreateFile rfs devPath none tempName).2 = devPath ++ [tempName]
    ∧ fsFind (deviceCreateFile rfs devPath none tempName).1 (devPath ++ [tempName])
        = some (FsEntry.file (""))
    ∧ fsFind rfs (deviceCreateFile rfs devPath none tempName).2 = none
    ∧ (deviceCreateFile rfs devPath (some n) tempName).2 = devPath ++ [n]
    ∧ fsFind (deviceCreateFile rfs devPath (some n) tempName).1
        (devPath ++ [tempName]) = some (FsEntry.file ("")) := by
  exact ⟨rfl, fsFind_fsWrite fs (envPath ++ [tempName]) (""), hfresh, rfl,
    fsFind_fsWrite fs (envPath ++ [n]) (""), rfl,
    fsFind_fsWrite rfs (devPath ++ [tempName]) (""), hrfresh, rfl,
    fsFind_fsWrite rfs (devPath ++ [tempName]) ("")⟩

/-- Witness for C8's amended claim at concrete inputs. -/
theorem createFile_spec_witness :
    (hostCreateFile [] ["", "tmp", "bs"] none ("tmpQ")).2 = ["", "tmp", "bs", "tmpQ"]
    ∧ fsFind (hostCreateFile [] ["", "tmp", "bs"] none ("tmpQ")).1
        (hostCreateFile [] ["", "tmp", "bs"] none ("tmpQ")).2
      = some (FsEntry.file (""))
    ∧ (deviceCreateFile [] ["", "data", "local", "tmp", "bs"]
        (some ("named.txt")) ("tmpQ")).2
      = ["", "data", "local", "tmp", "bs", "named.txt"] := by
  have h := createFile_spec [] ["", "tmp", "bs"] ("tmpQ") ("named.txt")
    [] ["", "data", "local", "tmp", "bs"] (by decide) (by decide)
  exact ⟨h.1.trans (by decide), h.2.1, h.2.2.2.2.2.2.2.2.1.trans (by decide)⟩

theorem mem_dictInsert_of_get_none (d : Dict) (k v : String)
    (h : dictGet d k = none) : (k, v) ∈ dictInsert d k v := by
  induction d with
  | nil => simp [dictInsert]
  | cons kv rest ih =>
    rw [dictGet] at h
    by_cases hk : kv.1 = k
    · simp [hk] at h
    · rw [if_neg hk] at h
      simp only [dictInsert, if_neg hk]
      exact List.mem_cons_of_mem _ (ih h)

/-- Claim C9: `DeviceTestEnv.RunCommand` injects the device scratch path as
the value of `ANDROID_DATA` into the override map exactly when the caller's
map does not bind it, leaves a caller-supplied binding unchanged, and the
resulting map is rendered as the inline `var=val` assignments of the
composite remote-shell command string. -/
theorem deviceRunCommand_android_data (devPathStr : String)
    (cmd : List String) (d : Dict) :
    (deviceRunCommand devPathStr cmd (some d)).updates
      = (match dictGet d ("ANDROID_DATA") with
         | none => dictInsert d ("ANDROID_DATA") devPathStr
         | some _ => d)
    ∧ dictGet ((deviceRunCommand devPathStr cmd (some d)).updates) ("ANDROID_DATA")
      = (match dictGet d ("ANDROID_DATA") with
         | none => some devPathStr
         | some v => some v)
    ∧ (deviceRunCommand devPathStr cmd (some d)).envUpdatesCmd
      = String.intercalate (" ")
          (((deviceRunCommand devPathStr cmd (some d)).updates).map
            (fun kv => kv.1 ++ "=" ++ kv.2))
    ∧ (deviceRunCommand devPathStr cmd (some d)).commandString
      = "adb shell \"logcat -c && "
        ++ (deviceRunCommand devPathStr cmd (some d)).envUpdatesCmd
        ++ " " ++ commandListToCommandString cmd
        ++ " ; logcat -d -s dex2oat:* dex2oatd:*| grep -v \"^---------\" 1>&2\""
    ∧ (dictGet d ("ANDROID_DATA") = none →
        ("ANDROID_DATA=" ++ devPathStr)
          ∈ ((deviceRunCommand devPathStr cmd (some d)).updates).map
              (fun kv => kv.1 ++ "=" ++ kv.2)) := by
  rcases hA : dictGet d ("ANDROID_DATA") with _ | v
  · refine ⟨by simp [deviceRunCommand, normUpdates, hA], ?_,
      by simp [deviceRunCommand, normUpdates, hA], rfl, ?_⟩
    · simp [deviceRunCommand, normUpdates, hA, dictGet_dictInsert]
    · intro _
      have hupd : (deviceRunCommand devPathStr cmd (some d)).updates
          = dictInsert d ("ANDROID_DATA") devPathStr := by
        simp [deviceRunCommand, normUpdates, hA]
      rw [hupd]
      exact List.mem_map.mpr
        ⟨("ANDROID_DATA", devPathStr),
         mem_dictInsert_of_get_none d ("ANDROID_DATA") devPathStr hA, rfl⟩
  · refine ⟨by simp [deviceRunCommand, normUpdates, hA], ?_,
      by simp [deviceRunCommand, normUpdates, hA], rfl, ?_⟩
    · simp [deviceRunCommand, normUpdates, hA]
    · intro hcontra
      simp at hcontra

/-- Witness for C9: without a caller binding the injected assignment
appears, with a caller binding the caller's value survives. -/
theorem deviceRunCommand_android_data_witness :
    (deviceRunCommand ("/data/local/tmp/bs") ["ls"] (some [("X", "1")])).updates
      = [("X", "1"), ("ANDROID_DATA", "/data/local/tmp/bs")]
    ∧ ("ANDROID_DATA=" ++ "/data/local/tmp/bs")
        ∈ ((deviceRunCommand ("/data/local/tmp/bs") ["ls"]
            (some [("X", "1")])).updates).map (fun kv => kv.1 ++ "=" ++ kv.2)
    ∧ dictGet ((deviceRunCommand ("/data/local/tmp/bs") ["ls"]
          (some [("ANDROID_DATA", "/custom")])).updates) ("ANDROID_DATA")
      = some ("/custom") := by
  have h1 := deviceRunCommand_android_data ("/data/local/tmp/bs") ["ls"] [("X", "1")]
  have h2 := deviceRunCommand_android_data ("/data/local/tmp/bs") ["ls"]
    [("ANDROID_DATA", "/custom")]
  exact ⟨h1.1.trans (by decide), h1.2.2.2.2 (by decide), h2.2.1.trans (by decide)⟩

/-- Claim C10: `DeviceTestEnv.RunCommand` mutates a non-empty
caller-supplied override dict that lacks `ANDROID_DATA` in place: after the
call the caller's own dict binds `ANDROID_DATA` to the device scratch path
and is no longer the dict the caller passed in value. -/
theorem deviceRunCommand_mutates_caller (devPathStr : String)
    (cmd : List String) (d : Dict)
    (hne : d ≠ []) (hnokey : dictGet d ("ANDROID_DATA") = none) :
    (deviceRunCommand devPathStr cmd (some d)).callerEnvUpdatesAfter
      = some (dictInsert d ("ANDROID_DATA") devPathStr)
    ∧ (∀ dAfter : Dict,
        (deviceRunCommand devPathStr cmd (some d)).callerEnvUpdatesAfter
            = some dAfter →
          dictGet dAfter ("ANDROID_DATA") = some devPathStr ∧ dAfter ≠ d) := by
  have hmain : (deviceRunCommand devPathStr cmd (some d)).callerEnvUpdatesAfter
      = some (dictInsert d ("ANDROID_DATA") devPathStr) := by
    simp [deviceRunCommand, normUpdates, hnokey, hne]
  refine ⟨hmain, ?_⟩
  intro dAfter hEq
  rw [hmain] at hEq
  have hd : dAfter = dictInsert d ("ANDROID_DATA") devPathStr :=
    (Option.some.inj hEq).symm
  subst hd
  constructor
  · simp [dictGet_dictInsert]
  · intro hcontra
    have := congrArg (fun x => dictGet x ("ANDROID_DATA")) hcontra
    simp [dictGet_dictInsert, hnokey] at this

/-- Witness for C10: a concrete non-empty override dict lacking
`ANDROID_DATA` is visibly extended in place. -/
theorem deviceRunCommand_mutates_caller_witness :
    (deviceRunCommand ("/data/local/tmp/bs9") ["ls"]
        (some [("Y", "2")])).callerEnvUpdatesAfter
      = some [("Y", "2"), ("ANDROID_DATA", "/data/local/tmp/bs9")]
    ∧ dictGet [("Y", "2"), ("ANDROID_DATA", "/data/local/tmp/bs9")] ("ANDROID_DATA")
      = some ("/data/local/tmp/bs9") := by
  have h := deviceRunCommand_mutates_caller ("/data/local/tmp/bs9") ["ls"]
    [("Y", "2")] (by decide) (by decide)
  refine ⟨h.1.trans (by decide), ?_⟩
  have h2 := (h.2 [("Y", "2"), ("ANDROID_DATA", "/data/local/tmp/bs9")]
    (h.1.trans (by decide))).1
  exact h2

end Bisection
